import Mathlib

/-!
Verification of the portman port-registry core: a shallow embedding of the
Registry (src/portman/db.py), the Allocator (src/portman/allocator.py) and
the Pruner (src/portman/pruner.py), with theorems settling the behavioural
claims about allocation, range configuration and pruning.

Modelling conventions:
* SQLite rows become Lean structures; the `allocations` table is a list in
  rowid (insertion) order; `port_ranges` is a list keyed by `service`
  (PRIMARY KEY, hence unique keys in every state the schema admits).
* Timestamps are abstract instants (`Int`); `datetime('now')` becomes an
  explicit `now` argument threaded into each operation that reads the clock.
* `sqlite3.IntegrityError` raised by the UNIQUE constraints on insert is
  `ConflictError`; SQLite rejects the insert exactly when another row holds
  the same port or the same (context_hash, service) pair.
* The SystemScanner is consulted read-only, so it is modelled as data: the
  set of listening ports and a bindability oracle.
* Environmental failures of `delete_allocation` (the only failure the
  pruner's try/except can observe) are modelled by an oracle `failDel`
  saying which row ids fail to delete.
-/

namespace Portman

/-- A row of the `allocations` table (db.py `_init_schema`).
Field `container_port`, `env_var` and `source` are the nullable columns. -/
structure Allocation where
  id : Nat
  context_hash : String
  context_path : String
  context_label : String
  service : String
  port : Nat
  container_port : Option Nat
  env_var : Option String
  source : Option String
  created_at : Int
  last_accessed_at : Int
deriving Repr, DecidableEq

/-- A row of the `port_ranges` table / the `PortRange` dataclass of db.py.
The Python field `end` is a Lean keyword, so it is called `stop` here. -/
structure PortRange where
  service : String
  start : Nat
  stop : Nat
deriving Repr, DecidableEq

/-- The persistent registry state: both tables plus the AUTOINCREMENT
counter that yields the next rowid. -/
structure Registry where
  allocations : List Allocation
  port_ranges : List PortRange
  next_id : Nat
deriving Repr, DecidableEq

/-- The rows seeded into `port_ranges` by `Database._init_schema`. -/
def seeded_ranges : List PortRange :=
  [⟨"postgres", 5432, 5499⟩, ⟨"postgresql", 5432, 5499⟩,
   ⟨"mysql", 3306, 3399⟩, ⟨"mariadb", 3306, 3399⟩,
   ⟨"redis", 6379, 6449⟩, ⟨"mongodb", 27017, 27099⟩,
   ⟨"mongo", 27017, 27099⟩, ⟨"elasticsearch", 9200, 9299⟩,
   ⟨"meilisearch", 7700, 7799⟩, ⟨"rabbitmq", 5672, 5699⟩,
   ⟨"kafka", 9092, 9099⟩, ⟨"default", 10000, 19999⟩]

/-- The registry right after `_init_schema` on a fresh database: no
allocations, the seeded ranges, AUTOINCREMENT starting at 1. -/
def initialRegistry : Registry :=
  { allocations := [], port_ranges := seeded_ranges, next_id := 1 }

/-- The uniqueness violation surfaced by `create_allocation`
(`sqlite3.IntegrityError` from the UNIQUE constraints; the spec names it
ConflictError). -/
inductive ConflictError where
  | conflict
deriving Repr, DecidableEq

/-- Embeds `Database.create_allocation`: INSERT a new row; SQLite rejects it when
the UNIQUE constraint on `port` or on `(context_hash, service)` is violated,
otherwise the row is appended with both timestamps set to now and the fresh
rowid is returned. -/
def create_allocation (context_hash context_path context_label service : String)
    (port : Nat) (container_port : Option Nat) (env_var source : Option String)
    (now : Int) (st : Registry) : Except ConflictError (Nat × Registry) :=
  if st.allocations.any (fun a => a.port == port) ||
     st.allocations.any (fun a => a.context_hash == context_hash && a.service == service) then
    .error .conflict
  else
    .ok (st.next_id,
      { st with
        allocations := st.allocations ++
          [{ id := st.next_id, context_hash := context_hash,
             context_path := context_path, context_label := context_label,
             service := service, port := port, container_port := container_port,
             env_var := env_var, source := source,
             created_at := now, last_accessed_at := now }],
        next_id := st.next_id + 1 })

/-- Embeds `Database.get_allocation`: SELECT the row for (context_hash, service). -/
def get_allocation (context_hash service : String) (st : Registry) : Option Allocation :=
  st.allocations.find? (fun a => a.context_hash == context_hash && a.service == service)

/-- lexicographic order on code points, modelling SQLite's binary text
collation. -/
def charListLt : List Char → List Char → Bool
  | _, [] => false
  | [], _ :: _ => true
  | a :: as, b :: bs =>
    if a.toNat < b.toNat then true
    else if b.toNat < a.toNat then false
    else charListLt as bs

/-- string comparison used by the ORDER BY clauses. -/
def strLt (a b : String) : Bool :=
  charListLt a.data b.data

/-- comparison used by ORDER BY context_label, service (binary collation). -/
def labelServiceLe (a b : Allocation) : Bool :=
  strLt a.context_label b.context_label ||
    (a.context_label == b.context_label &&
      (a.service == b.service || strLt a.service b.service))

/-- comparison used by ORDER BY last_accessed_at. -/
def lastAccessLe (a b : Allocation) : Bool :=
  a.last_accessed_at ≤ b.last_accessed_at

/-- insertion step of the sort modelling SQL ORDER BY. -/
def insertLe {α : Type} (le : α → α → Bool) (x : α) : List α → List α
  | [] => [x]
  | y :: ys => if le x y then x :: y :: ys else y :: insertLe le x ys

/-- insertion sort modelling SQL ORDER BY. -/
def sortLe {α : Type} (le : α → α → Bool) : List α → List α
  | [] => []
  | x :: xs => insertLe le x (sortLe le xs)

/-- Embeds `Database.get_all_allocations`: SELECT * ORDER BY context_label, service. -/
def get_all_allocations (st : Registry) : List Allocation :=
  sortLe labelServiceLe st.allocations

/-- Embeds `Database.get_all_allocated_ports`: the ports of all rows (a set in the
Python code; membership is all that is ever consulted). -/
def get_all_allocated_ports (st : Registry) : List Nat :=
  st.allocations.map (fun a => a.port)

/-- Embeds `Database.touch_allocation`: UPDATE last_accessed_at to now on the row
with the given id. -/
def touch_allocation (now : Int) (allocation_id : Nat) (st : Registry) : Registry :=
  { st with
    allocations := st.allocations.map
      (fun a => if a.id == allocation_id then { a with last_accessed_at := now } else a) }

/-- Embeds `Database.delete_allocation`: DELETE the row with the given id. -/
def delete_allocation (allocation_id : Nat) (st : Registry) : Registry :=
  { st with allocations := st.allocations.filter (fun a => a.id != allocation_id) }

/-- Embeds `Database.delete_allocations_by_context`: DELETE all rows of a context,
returning the number of deleted rows. -/
def delete_allocations_by_context (context_hash : String) (st : Registry) :
    Nat × Registry :=
  ((st.allocations.filter (fun a => a.context_hash == context_hash)).length,
   { st with allocations := st.allocations.filter (fun a => !(a.context_hash == context_hash)) })

/-- Embeds `Database.delete_allocation_by_service`: DELETE the row of a
(context, service) pair, reporting whether a row was deleted. -/
def delete_allocation_by_service (context_hash service : String) (st : Registry) :
    Bool × Registry :=
  let keep := st.allocations.filter
    (fun a => !(a.context_hash == context_hash && a.service == service))
  (st.allocations.any (fun a => a.context_hash == context_hash && a.service == service),
   { st with allocations := keep })

/-- Embeds `Database.get_stale_allocations`: rows with last_accessed_at older than
now minus days, ORDER BY last_accessed_at. -/
def get_stale_allocations (now : Int) (days : Nat) (st : Registry) : List Allocation :=
  sortLe lastAccessLe
    (st.allocations.filter (fun a => a.last_accessed_at < now - (days : Int)))

/-- Embeds `Database.get_port_range`: the service's row, else the "default" row,
else the hardcoded fallback 10000-19999. -/
def get_port_range (service : String) (st : Registry) : PortRange :=
  match st.port_ranges.find? (fun r => r.service == service) with
  | some r => r
  | none =>
    match st.port_ranges.find? (fun r => r.service == "default") with
    | some r => r
    | none => { service := "default", start := 10000, stop := 19999 }

/-- the INSERT ... ON CONFLICT(service) DO UPDATE of `set_port_range`,
as a list transformation on the keyed rows. -/
def upsert_range (service : String) (start stop : Nat) (l : List PortRange) :
    List PortRange :=
  if l.any (fun r => r.service == service) then
    l.map (fun r => if r.service == service then ⟨service, start, stop⟩ else r)
  else
    l ++ [⟨service, start, stop⟩]

/-- Embeds `Database.set_port_range`: unconditional upsert of the range row.
The Python method performs no validation of the bounds. -/
def set_port_range (service : String) (start stop : Nat) (st : Registry) : Registry :=
  { st with port_ranges := upsert_range service start stop st.port_ranges }

/-- The SystemScanner consulted read-only by the allocator (system.py):
the ports currently in LISTEN state and the live bindability probe.
Probe degradation (ss/lsof/netstat all failing) is the `listening = []`
instance. -/
structure SystemScanner where
  listening : List Nat
  bindable : Nat → Bool

/-- The failure raised by `PortAllocator.allocate`
(`PortAllocationError`); its message interpolates exactly the service name
and the bounds of the service's range: "No available port for service
SERVICE (tried range TRIED_START-TRIED_STOP)". -/
structure PortAllocationError where
  service : String
  tried_start : Nat
  tried_stop : Nat
deriving Repr, DecidableEq

/-- Embeds `PortAllocator._get_unavailable_ports`: database ports union listening
ports (membership is all that is consulted). -/
def get_unavailable_ports (sys : SystemScanner) (st : Registry) : List Nat :=
  get_all_allocated_ports st ++ sys.listening

/-- Embeds `PortAllocator._is_port_available`: not in the unavailable set and
bindable right now. -/
def is_port_available (sys : SystemScanner) (unavailable : List Nat) (port : Nat) : Bool :=
  if unavailable.contains port then false else sys.bindable port

/-- the ascending scan `for port in range(start, end + 1)` returning the
first available port, if any. -/
def scan_range (sys : SystemScanner) (unavailable : List Nat) (r : PortRange) :
    Option Nat :=
  (List.range' r.start (r.stop + 1 - r.start)).find? (is_port_available sys unavailable)

/-- Python truthiness of the optional preferred port: `if preferred_port`
is false for None and for 0. -/
def pref_truthy : Option Nat → Bool
  | none => false
  | some p => p != 0

/-- Embeds `PortAllocator.allocate`: return the existing allocation's port after
touching it; else try the (truthy) preferred port; else scan the service's
range ascending; else, when the service is not "default", scan the
"default" range; else fail, the error naming the service and the service
range's bounds. The registry is returned alongside: only the touch on the
existing-allocation path mutates it. -/
def allocate (sys : SystemScanner) (now : Int) (service context_hash : String)
    (preferred_port : Option Nat) (st : Registry) :
    Except PortAllocationError Nat × Registry :=
  match get_allocation context_hash service st with
  | some existing => (.ok existing.port, touch_allocation now existing.id st)
  | none =>
    let unavailable := get_unavailable_ports sys st
    if pref_truthy preferred_port &&
        is_port_available sys unavailable (preferred_port.getD 0) then
      (.ok (preferred_port.getD 0), st)
    else
      let port_range := get_port_range service st
      match scan_range sys unavailable port_range with
      | some p => (.ok p, st)
      | none =>
        if service == "default" then
          (.error ⟨service, port_range.start, port_range.stop⟩, st)
        else
          match scan_range sys unavailable (get_port_range "default" st) with
          | some p => (.ok p, st)
          | none => (.error ⟨service, port_range.start, port_range.stop⟩, st)

/-- Result record of the pruner (`PruneResult`); `errors` holds the
formatted "label: exception" strings, modelled by the record's label. -/
structure PruneResult where
  removed : List Allocation
  kept : List Allocation
  errors : List String
deriving Repr, DecidableEq

/-- Embeds `Pruner._is_orphan`: the context_path no longer exists. `fs` is the
filesystem-existence check (Path.exists). -/
def is_orphan (fs : String → Bool) (a : Allocation) : Bool :=
  !(fs a.context_path)

/-- Loop body of `Pruner.prune` over the snapshot of all allocations:
orphans are deleted (unless dry run) and appended to removed; a deletion
failure (oracle failDel) is caught per record, appended to errors, and the
loop continues; non-orphans are appended to kept. -/
def prune_go (fs : String → Bool) (failDel : Nat → Bool) (dry_run : Bool) :
    List Allocation → PruneResult → Registry → PruneResult × Registry
  | [], res, st => (res, st)
  | a :: rest, res, st =>
    if is_orphan fs a then
      if dry_run then
        prune_go fs failDel dry_run rest
          { res with removed := res.removed ++ [a] } st
      else if failDel a.id then
        prune_go fs failDel dry_run rest
          { res with errors := res.errors ++ [a.context_label] } st
      else
        prune_go fs failDel dry_run rest
          { res with removed := res.removed ++ [a] } (delete_allocation a.id st)
    else
      prune_go fs failDel dry_run rest { res with kept := res.kept ++ [a] } st

/-- Embeds `Pruner.prune`: snapshot all allocations, then classify each one. -/
def prune (fs : String → Bool) (failDel : Nat → Bool) (dry_run : Bool)
    (st : Registry) : PruneResult × Registry :=
  prune_go fs failDel dry_run (get_all_allocations st) ⟨[], [], []⟩ st

/-- The database exception propagated out of `prune_stale` when a delete
fails (no try/except surrounds its loop body). -/
inductive DbError where
  | deleteFailed (id : Nat)
deriving Repr, DecidableEq

/-- Loop body of `Pruner.prune_stale` over the stale snapshot: each stale
allocation is deleted (unless dry run) and appended to removed; a deletion
failure propagates immediately, aborting the remaining records. -/
def prune_stale_go (failDel : Nat → Bool) (dry_run : Bool) :
    List Allocation → PruneResult → Registry → Except DbError (PruneResult × Registry)
  | [], res, st => .ok (res, st)
  | a :: rest, res, st =>
    if dry_run then
      prune_stale_go failDel dry_run rest { res with removed := res.removed ++ [a] } st
    else if failDel a.id then
      .error (.deleteFailed a.id)
    else
      prune_stale_go failDel dry_run rest
        { res with removed := res.removed ++ [a] } (delete_allocation a.id st)

/-- Embeds `Pruner.prune_stale`: snapshot the stale allocations, then delete each
of them (unless dry run); kept and errors are never appended to. -/
def prune_stale (failDel : Nat → Bool) (now : Int) (days : Nat) (dry_run : Bool)
    (st : Registry) : Except DbError (PruneResult × Registry) :=
  prune_stale_go failDel dry_run (get_stale_allocations now days st) ⟨[], [], []⟩ st

/-- One mutating registry operation, as invoked by the core's callers.
A failing `create_allocation` leaves the state unchanged, so only the
successful create is a step. -/
inductive Step : Registry → Registry → Prop where
  | create (ch cp cl s : String) (p : Nat) (c : Option Nat) (e src : Option String)
      (now : Int) (i : Nat) (st st' : Registry) :
      create_allocation ch cp cl s p c e src now st = .ok (i, st') → Step st st'
  | touch (now : Int) (i : Nat) (st : Registry) :
      Step st (touch_allocation now i st)
  | delete (i : Nat) (st : Registry) : Step st (delete_allocation i st)
  | deleteByContext (ch : String) (st : Registry) :
      Step st (delete_allocations_by_context ch st).2
  | deleteByService (ch s : String) (st : Registry) :
      Step st (delete_allocation_by_service ch s st).2
  | setRange (s : String) (a b : Nat) (st : Registry) :
      Step st (set_port_range s a b st)

/-- Registry states reachable from the freshly initialised database by the
mutating operations. -/
inductive Reachable : Registry → Prop where
  | init : Reachable initialRegistry
  | step {st st' : Registry} : Reachable st → Step st st' → Reachable st'

/-- The registry invariant maintained by the schema's constraints: ports
pairwise distinct, (context_hash, service) pairs pairwise distinct, row ids
pairwise distinct and below the AUTOINCREMENT counter. -/
def RegInv (st : Registry) : Prop :=
  (st.allocations.map (fun a => a.port)).Nodup ∧
  (st.allocations.map (fun a => (a.context_hash, a.service))).Nodup ∧
  (st.allocations.map (fun a => a.id)).Nodup ∧
  ∀ a ∈ st.allocations, a.id < st.next_id

/-! ## Helper lemmas -/

theorem mem_insertLe {α : Type} {le : α → α → Bool} {x a : α} :
    ∀ {l : List α}, a ∈ insertLe le x l ↔ a = x ∨ a ∈ l := by
  intro l
  induction l with
  | nil => simp [insertLe]
  | cons y ys ih =>
    unfold insertLe
    by_cases h : le x y = true
    · simp [h]
    · rw [if_neg h]
      simp only [List.mem_cons, ih]
      tauto

theorem mem_sortLe {α : Type} {le : α → α → Bool} {a : α} :
    ∀ {l : List α}, a ∈ sortLe le l ↔ a ∈ l := by
  intro l
  induction l with
  | nil => simp [sortLe]
  | cons y ys ih => simp [sortLe, mem_insertLe, ih]

theorem mem_get_all_allocations {a : Allocation} {st : Registry} :
    a ∈ get_all_allocations st ↔ a ∈ st.allocations := by
  simp [get_all_allocations, mem_sortLe]

/-- find? over a keyed row list returns the unique row carrying the key. -/
theorem find?_service_eq_some {s : String} :
    ∀ {l : List PortRange}, (l.map (fun r => r.service)).Nodup →
      ∀ {r : PortRange}, r ∈ l → r.service = s →
      l.find? (fun x => x.service == s) = some r := by
  intro l
  induction l with
  | nil => intro _ r hr; simp at hr
  | cons h t ih =>
    intro hnd r hr hs
    simp only [List.map_cons, List.nodup_cons, List.mem_map] at hnd
    rcases List.mem_cons.mp hr with rfl | hrt
    · rw [List.find?_cons_of_pos _ (by simp [hs])]
    · have hhs : h.service ≠ s := by
        intro hh
        exact hnd.1 ⟨r, hrt, hs.trans hh.symm⟩
      rw [List.find?_cons_of_neg _ (by simp [hhs])]
      exact ih hnd.2 hrt hs

theorem find?_service_eq_none {s : String} {l : List PortRange}
    (h : ∀ r ∈ l, r.service ≠ s) :
    l.find? (fun x => x.service == s) = none := by
  rw [List.find?_eq_none]
  intro x hx
  simp [h x hx]

/-! ## C4: three-tier range lookup -/

/-- C4: GetRange is total and three-tiered: for every service name it
returns the service's configured range if one exists, otherwise the
configured "default" range, otherwise the hardcoded range 10000-19999;
being a total Lean function over total row lookups, it raises nothing for
any input. The port_ranges keys are unique (PRIMARY KEY). -/
theorem get_port_range_three_tier (s : String) (st : Registry)
    (hnd : (st.port_ranges.map (fun r => r.service)).Nodup) :
    (∀ r ∈ st.port_ranges, r.service = s → get_port_range s st = r) ∧
    ((∀ r ∈ st.port_ranges, r.service ≠ s) →
      ∀ r ∈ st.port_ranges, r.service = "default" → get_port_range s st = r) ∧
    ((∀ r ∈ st.port_ranges, r.service ≠ s ∧ r.service ≠ "default") →
      get_port_range s st = ⟨"default", 10000, 19999⟩) := by
  refine ⟨?_, ?_, ?_⟩
  · intro r hr hs
    unfold get_port_range
    rw [find?_service_eq_some hnd hr hs]
  · intro habs r hr hs
    unfold get_port_range
    rw [find?_service_eq_none habs, find?_service_eq_some hnd hr hs]
  · intro habs
    unfold get_port_range
    rw [find?_service_eq_none (fun r hr => (habs r hr).1),
        find?_service_eq_none (fun r hr => (habs r hr).2)]

/-- Witness for C4: the seeded registry resolves a configured service, an
unconfigured service, and (with the ranges table emptied) the hardcoded
fallback. -/
theorem get_port_range_three_tier_witness :
    (initialRegistry.port_ranges.map (fun r => r.service)).Nodup ∧
    get_port_range "mysql" initialRegistry = ⟨"mysql", 3306, 3399⟩ ∧
    get_port_range "nosuch" initialRegistry = ⟨"default", 10000, 19999⟩ ∧
    get_port_range "nosuch" { initialRegistry with port_ranges := [] }
      = ⟨"default", 10000, 19999⟩ := by
  refine ⟨by decide, ?_, ?_, ?_⟩
  · exact (get_port_range_three_tier "mysql" initialRegistry (by decide)).1
      ⟨"mysql", 3306, 3399⟩ (by decide) rfl
  · exact (get_port_range_three_tier "nosuch" initialRegistry (by decide)).2.1
      (by decide) ⟨"default", 10000, 19999⟩ (by decide) rfl
  · exact (get_port_range_three_tier "nosuch"
      { initialRegistry with port_ranges := [] } (by decide)).2.2 (by decide)

/-! ## C5: SetRange validation and upsert -/

theorem find?_map_replace (service : String) (a b : Nat) :
    ∀ (l : List PortRange), l.any (fun r => r.service == service) = true →
      (l.map (fun r => if r.service == service then ⟨service, a, b⟩ else r)).find?
          (fun r => r.service == service)
        = some ⟨service, a, b⟩ := by
  intro l
  induction l with
  | nil => intro hany; simp at hany
  | cons h t ih =>
    intro hany
    by_cases hh : h.service = service
    · rw [List.map_cons, if_pos (by simp [hh]),
        List.find?_cons_of_pos _ (by simp)]
    · rw [List.map_cons, if_neg (by simp [hh]),
        List.find?_cons_of_neg _ (by simp [hh])]
      have hhf : (h.service == service) = false := by simp [hh]
      simp only [List.any_cons, hhf, Bool.false_or] at hany
      exact ih hany

theorem find?_upsert_self (service : String) (a b : Nat) (l : List PortRange) :
    (upsert_range service a b l).find? (fun r => r.service == service)
      = some ⟨service, a, b⟩ := by
  unfold upsert_range
  by_cases hany : l.any (fun r => r.service == service) = true
  · rw [if_pos hany]
    exact find?_map_replace service a b l hany
  · rw [if_neg hany, List.find?_append,
      find?_service_eq_none
        (fun r hr heq => hany (List.any_eq_true.mpr ⟨r, hr, by simp [heq]⟩))]
    simp

theorem mem_upsert_of_ne {service : String} {a b : Nat} {l : List PortRange}
    {r : PortRange} (hne : r.service ≠ service) :
    r ∈ upsert_range service a b l ↔ r ∈ l := by
  unfold upsert_range
  by_cases hany : l.any (fun x => x.service == service) = true
  · rw [if_pos hany]
    constructor
    · intro hm
      rcases List.mem_map.mp hm with ⟨x, hx, hfx⟩
      by_cases hxs : x.service = service
      · rw [if_pos (by simp [hxs])] at hfx
        subst hfx
        exact absurd rfl hne
      · rw [if_neg (by simp [hxs])] at hfx
        exact hfx ▸ hx
    · intro hm
      refine List.mem_map.mpr ⟨r, hm, ?_⟩
      rw [if_neg (by simp [hne])]
  · rw [if_neg hany]
    simp only [List.mem_append, List.mem_singleton]
    constructor
    · rintro (hm | rfl)
      · exact hm
      · exact absurd rfl hne
    · exact fun hm => Or.inl hm

/-- Counterexample to C5 as stated: SetRange with start 9005 and end 9001
(start greater than end) does not fail; the inverted range row is stored
and subsequently returned by GetRange. -/
theorem set_port_range_accepts_inverted :
    9001 ≤ 9005 ∧
    (set_port_range "custom" 9005 9001 initialRegistry).port_ranges
      = seeded_ranges ++ [⟨"custom", 9005, 9001⟩] ∧
    get_port_range "custom" (set_port_range "custom" 9005 9001 initialRegistry)
      = ⟨"custom", 9005, 9001⟩ := by
  exact ⟨by decide, by decide, by decide⟩

/-- C5 amended: SetRange(service, start, end) upserts unconditionally —
the stored row for the service becomes (start, end) whether or not a row
existed, rows of other services and the allocations are untouched — and
performs no start/end validation: no InvalidRangeError exists at the
registry layer (the start < end check lives only in the out-of-scope CLI
command, which refuses to call SetRange on invalid bounds). -/
theorem set_port_range_upsert (service : String) (a b : Nat) (st : Registry) :
    get_port_range service (set_port_range service a b st) = ⟨service, a, b⟩ ∧
    (∀ r : PortRange, r.service ≠ service →
      (r ∈ (set_port_range service a b st).port_ranges ↔ r ∈ st.port_ranges)) ∧
    (set_port_range service a b st).allocations = st.allocations ∧
    (set_port_range service a b st).next_id = st.next_id := by
  refine ⟨?_, ?_, rfl, rfl⟩
  · unfold get_port_range set_port_range
    rw [find?_upsert_self]
  · intro r hne
    exact mem_upsert_of_ne hne

/-- Witness for C5's amended theorem: overwriting the seeded postgres range
and creating a fresh one. -/
theorem set_port_range_upsert_witness :
    get_port_range "postgres" (set_port_range "postgres" 6000 6099 initialRegistry)
      = ⟨"postgres", 6000, 6099⟩ ∧
    (⟨"mysql", 3306, 3399⟩ : PortRange).service ≠ "postgres" ∧
    (⟨"mysql", 3306, 3399⟩ ∈
        (set_port_range "postgres" 6000 6099 initialRegistry).port_ranges ↔
      ⟨"mysql", 3306, 3399⟩ ∈ initialRegistry.port_ranges) := by
  exact ⟨(set_port_range_upsert "postgres" 6000 6099 initialRegistry).1,
    by decide,
    (set_port_range_upsert "postgres" 6000 6099 initialRegistry).2.1
      ⟨"mysql", 3306, 3399⟩ (by decide)⟩

/-! ## C1: ConflictError iff conflict, and the uniqueness invariant -/

theorem create_allocation_isOk_iff
    (ch cp cl s : String) (p : Nat) (c : Option Nat) (e src : Option String)
    (now : Int) (st : Registry) :
    (create_allocation ch cp cl s p c e src now st).isOk = true ↔
      ((∀ x ∈ st.allocations, x.port ≠ p) ∧
       (∀ x ∈ st.allocations, ¬(x.context_hash = ch ∧ x.service = s))) := by
  unfold create_allocation
  split
  next hc =>
    simp only [Except.isOk]
    constructor
    · intro h; exact absurd h (by simp [Except.isOk, Except.toBool])
    · rintro ⟨h1, h2⟩
      exfalso
      rw [Bool.or_eq_true] at hc
      rcases hc with hA | hB
      · rcases List.any_eq_true.mp hA with ⟨x, hx, hxp⟩
        exact h1 x hx (by simpa using hxp)
      · rcases List.any_eq_true.mp hB with ⟨x, hx, hxp⟩
        simp only [Bool.and_eq_true, beq_iff_eq] at hxp
        exact h2 x hx hxp
  next hc =>
    simp only [Except.isOk]
    constructor
    · intro _
      constructor
      · intro x hx hxp
        exact hc (by
          rw [Bool.or_eq_true]
          exact Or.inl (List.any_eq_true.mpr ⟨x, hx, by simp [hxp]⟩))
      · rintro x hx ⟨hxh, hxs⟩
        exact hc (by
          rw [Bool.or_eq_true]
          exact Or.inr (List.any_eq_true.mpr ⟨x, hx, by simp [hxh, hxs]⟩))
    · intro _; rfl

theorem regInv_initial : RegInv initialRegistry := by
  refine ⟨by simp [initialRegistry], by simp [initialRegistry],
    by simp [initialRegistry], ?_⟩
  intro a ha
  simp [initialRegistry] at ha

theorem touch_map_eq {β : Type} (g : Allocation → β)
    (hg : ∀ (x : Allocation) (t : Int), g { x with last_accessed_at := t } = g x)
    (now : Int) (i : Nat) (st : Registry) :
    (touch_allocation now i st).allocations.map g = st.allocations.map g := by
  unfold touch_allocation
  rw [List.map_map]
  apply List.map_congr_left
  intro a _
  by_cases ha : (a.id == i) = true
  · simp only [Function.comp_apply, if_pos ha, hg]
  · simp only [Function.comp_apply, if_neg ha]

theorem regInv_filter (q : Allocation → Bool) (st : Registry) (hinv : RegInv st) :
    RegInv { st with allocations := st.allocations.filter q } := by
  obtain ⟨h1, h2, h3, h4⟩ := hinv
  refine ⟨List.Nodup.sublist ((List.filter_sublist _).map _) h1,
    List.Nodup.sublist ((List.filter_sublist _).map _) h2,
    List.Nodup.sublist ((List.filter_sublist _).map _) h3, ?_⟩
  intro a ha
  exact h4 a (List.mem_filter.mp ha).1

theorem step_regInv {st st' : Registry} (h : Step st st') (hinv : RegInv st) :
    RegInv st' := by
  obtain ⟨h1, h2, h3, h4⟩ := hinv
  cases h with
  | create ch cp cl s p c e src now i st_ st'_ heq =>
    unfold create_allocation at heq
    split at heq
    · exact absurd heq (by simp)
    next hc =>
      simp only [Except.ok.injEq, Prod.mk.injEq] at heq
      obtain ⟨-, hst'⟩ := heq
      subst hst'
      simp only [Bool.or_eq_true, not_or, List.any_eq_true, not_exists] at hc
      obtain ⟨hA, hB⟩ := hc
      refine ⟨?_, ?_, ?_, ?_⟩
      · rw [List.map_append, List.nodup_append]
        refine ⟨h1, by simp, ?_⟩
        intro q hq hq'
        simp only [List.map_cons, List.map_nil, List.mem_singleton] at hq'
        subst hq'
        rcases List.mem_map.mp hq with ⟨x, hx, hxq⟩
        exact hA x (by simp [hx, hxq])
      · rw [List.map_append, List.nodup_append]
        refine ⟨h2, by simp, ?_⟩
        intro q hq hq'
        simp only [List.map_cons, List.map_nil, List.mem_singleton] at hq'
        subst hq'
        rcases List.mem_map.mp hq with ⟨x, hx, hxq⟩
        refine hB x ⟨hx, ?_⟩
        simp only [Prod.mk.injEq] at hxq
        simp [hxq.1, hxq.2]
      · rw [List.map_append, List.nodup_append]
        refine ⟨h3, by simp, ?_⟩
        intro q hq hq'
        simp only [List.map_cons, List.map_nil, List.mem_singleton] at hq'
        subst hq'
        rcases List.mem_map.mp hq with ⟨x, hx, hxq⟩
        exact absurd (hxq ▸ h4 x hx) (Nat.lt_irrefl _)
      · intro a ha
        rcases List.mem_append.mp ha with hold | hnew
        · exact Nat.lt_trans (h4 a hold) (Nat.lt_succ_self _)
        · simp only [List.mem_singleton] at hnew
          subst hnew
          exact Nat.lt_succ_self _
  | touch now i st =>
    refine ⟨?_, ?_, ?_, ?_⟩
    · rw [touch_map_eq (fun a => a.port) (fun _ _ => rfl)]; exact h1
    · rw [touch_map_eq (fun a => (a.context_hash, a.service)) (fun _ _ => rfl)]
      exact h2
    · rw [touch_map_eq (fun a => a.id) (fun _ _ => rfl)]; exact h3
    · intro a ha
      unfold touch_allocation at ha
      rcases List.mem_map.mp ha with ⟨x, hx, hxa⟩
      have hid : a.id = x.id := by
        subst hxa
        by_cases hxi : (x.id == i) = true
        · rw [if_pos hxi]
        · rw [if_neg hxi]
      rw [hid]
      exact h4 x hx
  | delete i st => exact regInv_filter _ st ⟨h1, h2, h3, h4⟩
  | deleteByContext ch st => exact regInv_filter _ st ⟨h1, h2, h3, h4⟩
  | deleteByService ch s st => exact regInv_filter _ st ⟨h1, h2, h3, h4⟩
  | setRange s a b st => exact ⟨h1, h2, h3, h4⟩

theorem reachable_regInv {st : Registry} (h : Reachable st) : RegInv st := by
  induction h with
  | init => exact regInv_initial
  | step _ hs ih => exact step_regInv hs ih

/-- C1: CreateAllocation fails with a ConflictError exactly when the
requested port is already claimed by an existing row or the
(context_hash, service) pair already has a row, and succeeds otherwise;
consequently, in every reachable registry state no two allocations share a
port and no two share a (context, service) pair. -/
theorem create_allocation_conflict_and_uniqueness
    (ch cp cl s : String) (p : Nat) (c : Option Nat) (e src : Option String)
    (now : Int) (st : Registry) :
    ((create_allocation ch cp cl s p c e src now st).isOk = true ↔
      ((∀ x ∈ st.allocations, x.port ≠ p) ∧
       (∀ x ∈ st.allocations, ¬(x.context_hash = ch ∧ x.service = s)))) ∧
    (Reachable st →
      (st.allocations.map (fun a => a.port)).Nodup ∧
      (st.allocations.map (fun a => (a.context_hash, a.service))).Nodup) := by
  refine ⟨create_allocation_isOk_iff ch cp cl s p c e src now st, ?_⟩
  intro hr
  exact ⟨(reachable_regInv hr).1, (reachable_regInv hr).2.1⟩

/-- Witness for C1: on the fresh registry a create succeeds, and the
reachable initial state satisfies the uniqueness invariant. -/
theorem create_allocation_conflict_and_uniqueness_witness :
    (create_allocation "h1" "/p1" "l1" "svc" 4242 none none none 0
        initialRegistry).isOk = true ∧
    (initialRegistry.allocations.map (fun a => a.port)).Nodup := by
  refine ⟨?_, ?_⟩
  · exact (create_allocation_conflict_and_uniqueness "h1" "/p1" "l1" "svc" 4242
      none none none 0 initialRegistry).1.mpr (by decide)
  · exact ((create_allocation_conflict_and_uniqueness "h1" "/p1" "l1" "svc" 4242
      none none none 0 initialRegistry).2 Reachable.init).1

/-! ## C2: stable reuse of an existing allocation -/

theorem get_allocation_touch {ch s : String} {st : Registry} {a : Allocation}
    (h : get_allocation ch s st = some a) (now : Int) (i : Nat) :
    get_allocation ch s (touch_allocation now i st)
      = some (if a.id == i then { a with last_accessed_at := now } else a) := by
  unfold get_allocation at h
  unfold get_allocation touch_allocation
  rw [List.find?_map]
  have hp : ((fun x : Allocation => x.context_hash == ch && x.service == s) ∘
      (fun x : Allocation =>
        if x.id == i then { x with last_accessed_at := now } else x))
      = fun x : Allocation => x.context_hash == ch && x.service == s := by
    funext x
    by_cases hx : (x.id == i) = true
    · simp only [Function.comp_apply, if_pos hx]
    · simp only [Function.comp_apply, if_neg hx]
  rw [hp, h]
  rfl

/-- Shared concrete sample allocation for witnesses. -/
def sampleAlloc : Allocation :=
  { id := 1, context_hash := "X", context_path := "/x", context_label := "x",
    service := "postgres", port := 5432, container_port := none,
    env_var := none, source := none, created_at := 0, last_accessed_at := 0 }

/-- Shared concrete sample registry: one postgres allocation on the seeded
ranges. -/
def sampleRegistry : Registry :=
  { allocations := [sampleAlloc], port_ranges := seeded_ranges, next_id := 2 }

/-- C2: when (context, service) already has an allocation, Allocate returns
exactly that allocation's port, the only state change is the touch that
sets its last_accessed_at to now, the touched pair still resolves to the
same record with the updated timestamp, and a repeated Allocate (any
scanner, clock or preferred port) returns the same port again. -/
theorem allocate_stable_reuse
    (sys sys2 : SystemScanner) (now now2 : Int) (s ch : String)
    (pref pref2 : Option Nat) (st : Registry) (a : Allocation)
    (h : get_allocation ch s st = some a) :
    allocate sys now s ch pref st = (.ok a.port, touch_allocation now a.id st) ∧
    get_allocation ch s (touch_allocation now a.id st)
      = some { a with last_accessed_at := now } ∧
    (allocate sys2 now2 s ch pref2 (touch_allocation now a.id st)).1
      = .ok a.port := by
  have htouch : get_allocation ch s (touch_allocation now a.id st)
      = some { a with last_accessed_at := now } := by
    rw [get_allocation_touch h now a.id, if_pos (by simp)]
  refine ⟨?_, htouch, ?_⟩
  · unfold allocate
    rw [h]
  · unfold allocate
    rw [htouch]

/-- Witness for C2 at the sample registry. -/
theorem allocate_stable_reuse_witness :
    get_allocation "X" "postgres" sampleRegistry = some sampleAlloc ∧
    allocate ⟨[], fun _ => true⟩ 7 "postgres" "X" (some 9999) sampleRegistry
      = (.ok 5432, touch_allocation 7 1 sampleRegistry) ∧
    (allocate ⟨[5432], fun _ => false⟩ 9 "postgres" "X" none
        (touch_allocation 7 1 sampleRegistry)).1 = .ok 5432 := by
  have h := allocate_stable_reuse ⟨[], fun _ => true⟩ ⟨[5432], fun _ => false⟩
    7 9 "postgres" "X" (some 9999) none sampleRegistry sampleAlloc (by decide)
  exact ⟨by decide, h.1, h.2.2⟩

/-! ## C3: deterministic minimal scan -/

theorem find?_range'_eq_some {f : Nat → Bool} :
    ∀ (n s p : Nat), s ≤ p → p < s + n → f p = true →
      (∀ q, s ≤ q → q < p → f q = false) →
      (List.range' s n).find? f = some p := by
  intro n
  induction n with
  | zero => intro s p h1 h2; omega
  | succ m ih =>
    intro s p h1 h2 hfp hmin
    rcases Nat.eq_or_lt_of_le h1 with rfl | hlt
    · rw [List.range'_succ, List.find?_cons_of_pos _ hfp]
    · rw [List.range'_succ,
        List.find?_cons_of_neg _ (by simp [hmin s (Nat.le_refl s) hlt])]
      exact ih (s + 1) p hlt (by omega) hfp (fun q hq1 hq2 => hmin q (by omega) hq2)

theorem scan_range_eq_some {sys : SystemScanner} {unavailable : List Nat}
    {r : PortRange} {p : Nat} (h1 : r.start ≤ p) (h2 : p ≤ r.stop)
    (hav : is_port_available sys unavailable p = true)
    (hmin : ∀ q, r.start ≤ q → q < p →
      is_port_available sys unavailable q = false) :
    scan_range sys unavailable r = some p := by
  unfold scan_range
  exact find?_range'_eq_some _ _ _ h1 (by omega) hav hmin

theorem scan_range_eq_none {sys : SystemScanner} {unavailable : List Nat}
    {r : PortRange}
    (h : ∀ q, r.start ≤ q → q ≤ r.stop →
      is_port_available sys unavailable q = false) :
    scan_range sys unavailable r = none := by
  unfold scan_range
  rw [List.find?_eq_none]
  intro x hx
  rw [List.mem_range'_1] at hx
  simp [h x hx.1 (by omega)]

/-- C3: with no existing allocation and no usable preferred port, Allocate
returns the lowest port of the service's configured range that is neither
in the unavailable set nor fails the bindability check, scanning in
ascending order, and does not mutate the registry. -/
theorem allocate_minimal_scan
    (sys : SystemScanner) (now : Int) (s ch : String) (pref : Option Nat)
    (st : Registry) (p : Nat)
    (hget : get_allocation ch s st = none)
    (hpref : (pref_truthy pref &&
      is_port_available sys (get_unavailable_ports sys st) (pref.getD 0)) = false)
    (h1 : (get_port_range s st).start ≤ p)
    (h2 : p ≤ (get_port_range s st).stop)
    (hav : is_port_available sys (get_unavailable_ports sys st) p = true)
    (hmin : ∀ q, (get_port_range s st).start ≤ q → q < p →
      is_port_available sys (get_unavailable_ports sys st) q = false) :
    allocate sys now s ch pref st = (.ok p, st) := by
  unfold allocate
  rw [hget]
  simp only [hpref, Bool.false_eq_true, if_false]
  rw [scan_range_eq_some h1 h2 hav hmin]

/-- Witness for C3, spec scenario 1: empty registry, default ranges, no
busy host ports, everything bindable; Allocate("postgres", ctxA) returns
5432 and leaves the registry untouched. -/
theorem allocate_minimal_scan_witness :
    get_allocation "ctxA" "postgres" initialRegistry = none ∧
    (get_port_range "postgres" initialRegistry).start = 5432 ∧
    allocate ⟨[], fun _ => true⟩ 0 "postgres" "ctxA" none initialRegistry
      = (.ok 5432, initialRegistry) := by
  refine ⟨by decide, by decide, ?_⟩
  exact allocate_minimal_scan ⟨[], fun _ => true⟩ 0 "postgres" "ctxA" none
    initialRegistry 5432 (by decide) (by decide) (by decide) (by decide)
    (by decide) (fun q hq1 hq2 => absurd (Nat.lt_of_le_of_lt hq1 hq2)
      (by decide))

/-! ## C6: Allocate never persists -/

/-- Projection of an allocation onto all fields except last_accessed_at
(normalised to 0), used to state that allocate changes nothing else. -/
def clear_last_access (a : Allocation) : Allocation :=
  { a with last_accessed_at := 0 }

theorem allocate_snd_of_none {sys : SystemScanner} {now : Int}
    {s ch : String} {pref : Option Nat} {st : Registry}
    (hget : get_allocation ch s st = none) :
    (allocate sys now s ch pref st).2 = st := by
  simp only [allocate, hget]
  by_cases hc : (pref_truthy pref && is_port_available sys
      (get_unavailable_ports sys st) (pref.getD 0)) = true
  · rw [if_pos hc]
  · rw [if_neg hc]
    rcases hs : scan_range sys (get_unavailable_ports sys st)
        (get_port_range s st) with - | p
    · simp only [hs]
      by_cases hd : (s == "default") = true
      · rw [if_pos hd]
      · rw [if_neg hd]
        rcases hds : scan_range sys (get_unavailable_ports sys st)
            (get_port_range "default" st) with - | q
        · simp only [hds]
        · simp only [hds]
    · simp only [hs]

/-- C6: Allocate never persists: the port_ranges rows, the AUTOINCREMENT
counter and every allocation field other than last_accessed_at are
unchanged by any call; when no allocation exists for (context, service)
the registry is returned exactly as given (the preferred-port and
range-scan paths create, delete and modify nothing), and when one exists
the state change is exactly the touch of that allocation, every other
record surviving untouched. -/
theorem allocate_no_persist
    (sys : SystemScanner) (now : Int) (s ch : String) (pref : Option Nat)
    (st : Registry) :
    ((allocate sys now s ch pref st).2.allocations.map clear_last_access
      = st.allocations.map clear_last_access) ∧
    (allocate sys now s ch pref st).2.port_ranges = st.port_ranges ∧
    (allocate sys now s ch pref st).2.next_id = st.next_id ∧
    (get_allocation ch s st = none → (allocate sys now s ch pref st).2 = st) ∧
    (∀ a, get_allocation ch s st = some a →
      (allocate sys now s ch pref st).2 = touch_allocation now a.id st ∧
      ∀ b ∈ st.allocations, b.id ≠ a.id →
        b ∈ (allocate sys now s ch pref st).2.allocations) := by
  rcases hget : get_allocation ch s st with - | a
  · have hsnd := @allocate_snd_of_none sys now s ch pref st hget
    rw [hsnd]
    exact ⟨rfl, rfl, rfl, fun _ => rfl, fun a ha => absurd ha (by simp)⟩
  · have hsnd : (allocate sys now s ch pref st).2
        = touch_allocation now a.id st := by
      unfold allocate
      rw [hget]
    rw [hsnd]
    refine ⟨touch_map_eq clear_last_access (fun _ _ => rfl) now a.id st,
      rfl, rfl, fun hn => absurd hn (by simp), ?_⟩
    rintro x hx
    injection hx with hx
    subst hx
    refine ⟨rfl, ?_⟩
    intro b hb hbid
    unfold touch_allocation
    refine List.mem_map.mpr ⟨b, hb, ?_⟩
    rw [if_neg (by simp [hbid])]

/-- Witness for C6 at the sample registry, on both paths. -/
theorem allocate_no_persist_witness :
    get_allocation "Y" "redis" sampleRegistry = none ∧
    (allocate ⟨[], fun _ => true⟩ 3 "redis" "Y" none sampleRegistry).2
      = sampleRegistry ∧
    get_allocation "X" "postgres" sampleRegistry = some sampleAlloc ∧
    (allocate ⟨[], fun _ => true⟩ 3 "postgres" "X" none sampleRegistry).2
      = touch_allocation 3 1 sampleRegistry := by
  refine ⟨by decide, ?_, by decide, ?_⟩
  · exact (allocate_no_persist ⟨[], fun _ => true⟩ 3 "redis" "Y" none
      sampleRegistry).2.2.2.1 (by decide)
  · exact ((allocate_no_persist ⟨[], fun _ => true⟩ 3 "postgres" "X" none
      sampleRegistry).2.2.2.2 sampleAlloc (by decide)).1

/-! ## C7: default-range fallback and exhaustion error -/

/-- Modelled from the claim's wording "the range(s) tried": the ranges the
allocator scans before reaching exhaustion — the service's range, then,
for a service other than "default", also the "default" range. -/
def ranges_tried (service : String) (st : Registry) : List PortRange :=
  if service == "default" then [get_port_range service st]
  else [get_port_range service st, get_port_range "default" st]

/-- The range bounds interpolated into the PortAllocationError message
"No available port for service S (tried range A-B)": exactly one pair. -/
def ranges_named (e : PortAllocationError) : List (Nat × Nat) :=
  [(e.tried_start, e.tried_stop)]

/-- A registry whose "custom" range 7000-7001 and (shrunk) "default" range
9000-9002 can both be exhausted cheaply. -/
def exhaustedRegistry : Registry :=
  set_port_range "custom" 7000 7001
    (set_port_range "default" 9000 9002 initialRegistry)

/-- Counterexample to C7 as stated: with every port unavailable, the
allocator for service "custom" scans its range 7000-7001 and then the
"default" range 9000-9002, but the AllocationExhaustedError message names
only the service range — the "default" range it also tried is absent from
the message. -/
theorem allocate_error_omits_default_range :
    allocate ⟨[], fun _ => false⟩ 0 "custom" "ctx" none exhaustedRegistry
      = (.error ⟨"custom", 7000, 7001⟩, exhaustedRegistry) ∧
    ranges_tried "custom" exhaustedRegistry
      = [⟨"custom", 7000, 7001⟩, ⟨"default", 9000, 9002⟩] ∧
    (9000, 9002) ∉ ranges_named ⟨"custom", 7000, 7001⟩ := by
  exact ⟨rfl, by decide, by decide⟩

/-- C7 amended: when no port of the service's configured range is
available and the service is not itself "default", Allocate repeats the
ascending scan over the "default" range and returns its lowest available
port; if that too yields nothing (or the service is "default"), Allocate
fails with an AllocationExhaustedError naming the service and the
service's configured range (the first range tried — the "default" range,
even when also scanned, is not named), and the failure is returned without
any internal retry. -/
theorem allocate_default_fallback
    (sys : SystemScanner) (now : Int) (s ch : String) (pref : Option Nat)
    (st : Registry)
    (hget : get_allocation ch s st = none)
    (hpref : (pref_truthy pref &&
      is_port_available sys (get_unavailable_ports sys st) (pref.getD 0)) = false)
    (hsvc : ∀ q, (get_port_range s st).start ≤ q →
      q ≤ (get_port_range s st).stop →
      is_port_available sys (get_unavailable_ports sys st) q = false) :
    (s ≠ "default" →
      (∀ p, (get_port_range "default" st).start ≤ p →
        p ≤ (get_port_range "default" st).stop →
        is_port_available sys (get_unavailable_ports sys st) p = true →
        (∀ q, (get_port_range "default" st).start ≤ q → q < p →
          is_port_available sys (get_unavailable_ports sys st) q = false) →
        allocate sys now s ch pref st = (.ok p, st)) ∧
      ((∀ q, (get_port_range "default" st).start ≤ q →
          q ≤ (get_port_range "default" st).stop →
          is_port_available sys (get_unavailable_ports sys st) q = false) →
        allocate sys now s ch pref st =
          (.error ⟨s, (get_port_range s st).start, (get_port_range s st).stop⟩,
            st))) ∧
    (s = "default" →
      allocate sys now s ch pref st =
        (.error ⟨s, (get_port_range s st).start, (get_port_range s st).stop⟩,
          st)) := by
  have hs : scan_range sys (get_unavailable_ports sys st) (get_port_range s st)
      = none := scan_range_eq_none hsvc
  constructor
  · intro hnd
    constructor
    · intro p hp1 hp2 hav hmin
      simp only [allocate, hget]
      rw [if_neg (by simp [hpref])]
      simp only [hs]
      rw [if_neg (by simp [hnd]), scan_range_eq_some hp1 hp2 hav hmin]
    · intro hdef
      simp only [allocate, hget]
      rw [if_neg (by simp [hpref])]
      simp only [hs]
      rw [if_neg (by simp [hnd]), scan_range_eq_none hdef]
  · intro hd
    simp only [allocate, hget]
    rw [if_neg (by simp [hpref])]
    simp only [hs]
    rw [if_pos (by simp [hd])]

/-- Witness for C7's amended theorem: spec scenario 3 shape — service range
7000-7001 exhausted, the shrunk default range 9000-9002 has 9000 free, so
Allocate falls back to 9000; and with everything unavailable the error
names "custom" and 7000-7001. -/
theorem allocate_default_fallback_witness :
    get_allocation "ctx" "custom" exhaustedRegistry = none ∧
    allocate ⟨[7000, 7001], fun _ => true⟩ 0 "custom" "ctx" none
        exhaustedRegistry = (.ok 9000, exhaustedRegistry) ∧
    allocate ⟨[], fun _ => false⟩ 1 "custom" "ctx" none exhaustedRegistry
      = (.error ⟨"custom", 7000, 7001⟩, exhaustedRegistry) := by
  refine ⟨by decide, ?_, ?_⟩
  · exact ((allocate_default_fallback ⟨[7000, 7001], fun _ => true⟩ 0 "custom"
      "ctx" none exhaustedRegistry (by decide) (by decide)
      (fun q hq1 hq2 => by
        have h1 : 7000 ≤ q := hq1
        have h2 : q ≤ 7001 := hq2
        obtain rfl | rfl : q = 7000 ∨ q = 7001 := by omega
        · rfl
        · rfl)).1 (by decide)).1 9000
      (by decide) (by decide) (by decide)
      (fun q hq1 hq2 => absurd (Nat.lt_of_le_of_lt hq1 hq2) (by decide))
  · exact ((allocate_default_fallback ⟨[], fun _ => false⟩ 1 "custom"
      "ctx" none exhaustedRegistry (by decide) (by decide)
      (fun q _ _ => rfl)).1 (by decide)).2 (fun q _ _ => rfl)

/-! ## C8: Prune classification -/

/-- Sequential per-row deletes performed by the pruner loops. -/
def delete_ids (ids : List Nat) (st : Registry) : Registry :=
  ids.foldl (fun s i => delete_allocation i s) st

theorem delete_ids_frame : ∀ (ids : List Nat) (st : Registry),
    (delete_ids ids st).port_ranges = st.port_ranges ∧
    (delete_ids ids st).next_id = st.next_id := by
  intro ids
  induction ids with
  | nil => intro st; exact ⟨rfl, rfl⟩
  | cons i is ih => intro st; exact ih (delete_allocation i st)

theorem delete_ids_allocations : ∀ (ids : List Nat) (st : Registry),
    (delete_ids ids st).allocations
      = st.allocations.filter (fun a => !(ids.contains a.id)) := by
  intro ids
  induction ids with
  | nil =>
    intro st
    simp [delete_ids, List.contains_nil]
  | cons i is ih =>
    intro st
    have h1 : delete_ids (i :: is) st = delete_ids is (delete_allocation i st) :=
      rfl
    rw [h1, ih]
    have h2 : (delete_allocation i st).allocations
        = st.allocations.filter (fun a => a.id != i) := rfl
    rw [h2, List.filter_filter]
    apply List.filter_congr
    intro a _
    rw [List.contains_cons]
    cases hA : (a.id == i)
    · cases hB : is.contains a.id <;> simp [bne, hA, hB]
    · cases hB : is.contains a.id <;> simp [bne, hA, hB]

theorem contains_ids_eq {P : Allocation → Bool} {l : List Allocation}
    {st : Registry}
    (hnd : (st.allocations.map (fun a => a.id)).Nodup)
    (hl : ∀ x, x ∈ l ↔ x ∈ st.allocations ∧ P x = true)
    {a : Allocation} (ha : a ∈ st.allocations) :
    (l.map (fun x => x.id)).contains a.id = P a := by
  by_cases hP : P a = true
  · rw [hP]
    exact List.elem_iff.mpr (List.mem_map.mpr ⟨a, (hl a).mpr ⟨ha, hP⟩, rfl⟩)
  · rw [Bool.not_eq_true] at hP
    rw [hP]
    by_contra hc
    rw [Bool.not_eq_false] at hc
    rcases List.mem_map.mp (List.elem_iff.mp hc) with ⟨x, hx, hxa⟩
    obtain ⟨hxs, hxP⟩ := (hl x).mp hx
    have : x = a := List.inj_on_of_nodup_map hnd hxs ha hxa
    rw [this] at hxP
    exact absurd hxP (by simp [hP])

/-- The final registry state after deleting exactly the rows satisfying P,
one by one by id. -/
theorem delete_ids_filter {P : Allocation → Bool} {l : List Allocation}
    {st : Registry}
    (hnd : (st.allocations.map (fun a => a.id)).Nodup)
    (hl : ∀ x, x ∈ l ↔ x ∈ st.allocations ∧ P x = true) :
    (delete_ids (l.map (fun x => x.id)) st).allocations
      = st.allocations.filter (fun a => !(P a)) := by
  rw [delete_ids_allocations]
  apply List.filter_congr
  intro a ha
  rw [contains_ids_eq hnd hl ha]

theorem prune_go_spec (fs : String → Bool) (failDel : Nat → Bool)
    (dry_run : Bool) (hf : ∀ i, failDel i = false) :
    ∀ (l : List Allocation) (res : PruneResult) (st : Registry),
      prune_go fs failDel dry_run l res st =
        ({ removed := res.removed ++ l.filter (fun a => is_orphan fs a),
           kept := res.kept ++ l.filter (fun a => !(is_orphan fs a)),
           errors := res.errors },
         if dry_run then st
         else delete_ids ((l.filter (fun a => is_orphan fs a)).map
           (fun a => a.id)) st) := by
  intro l
  induction l with
  | nil =>
    intro res st
    cases dry_run
    · simp [prune_go, delete_ids]
    · simp [prune_go]
  | cons a rest ih =>
    intro res st
    by_cases hdr : dry_run = true
    all_goals
      first
        | rw [hdr] at ih ⊢
        | (rw [Bool.not_eq_true] at hdr; rw [hdr] at ih ⊢)
    all_goals by_cases ho : is_orphan fs a = true
    · simp [prune_go, ho, ih, List.filter_cons, List.append_assoc]
    · have hob : is_orphan fs a = false := by
        rw [Bool.not_eq_true] at ho
        exact ho
      simp [prune_go, hob, ih, List.filter_cons, List.append_assoc]
    · simp [prune_go, ho, hf, ih, List.filter_cons, List.append_assoc,
        delete_ids]
    · have hob : is_orphan fs a = false := by
        rw [Bool.not_eq_true] at ho
        exact ho
      simp [prune_go, hob, hf, ih, List.filter_cons, List.append_assoc,
        delete_ids]

/-- C8: Prune classifies every allocation: an allocation whose
context_path no longer exists goes to removed (and, unless dry run, is
deleted from the registry), every other allocation goes to kept, errors
stay empty when no delete fails, and with dryRun = true the registry is
left completely unchanged. Row ids are pairwise distinct (AUTOINCREMENT
primary key), and the failure oracle reports no environmental delete
failure. -/
theorem prune_classification
    (fs : String → Bool) (failDel : Nat → Bool) (dry_run : Bool)
    (st : Registry)
    (hf : ∀ i, failDel i = false)
    (hnd : (st.allocations.map (fun a => a.id)).Nodup) :
    (prune fs failDel dry_run st).1.removed
      = (get_all_allocations st).filter (fun a => is_orphan fs a) ∧
    (prune fs failDel dry_run st).1.kept
      = (get_all_allocations st).filter (fun a => !(is_orphan fs a)) ∧
    (prune fs failDel dry_run st).1.errors = [] ∧
    (∀ a ∈ st.allocations,
      (fs a.context_path = false → a ∈ (prune fs failDel dry_run st).1.removed) ∧
      (fs a.context_path = true → a ∈ (prune fs failDel dry_run st).1.kept)) ∧
    (dry_run = true → (prune fs failDel dry_run st).2 = st) ∧
    (dry_run = false → (prune fs failDel dry_run st).2.allocations
      = st.allocations.filter (fun a => fs a.context_path)) := by
  have hspec := prune_go_spec fs failDel dry_run hf (get_all_allocations st)
    ⟨[], [], []⟩ st
  have hrem : (prune fs failDel dry_run st).1.removed
      = (get_all_allocations st).filter (fun a => is_orphan fs a) := by
    unfold prune
    rw [hspec]
    rfl
  have hkept : (prune fs failDel dry_run st).1.kept
      = (get_all_allocations st).filter (fun a => !(is_orphan fs a)) := by
    unfold prune
    rw [hspec]
    rfl
  have herr : (prune fs failDel dry_run st).1.errors = [] := by
    unfold prune
    rw [hspec]
  have hsnd : (prune fs failDel dry_run st).2
      = (if dry_run then st
         else delete_ids (((get_all_allocations st).filter
           (fun a => is_orphan fs a)).map (fun a => a.id)) st) := by
    unfold prune
    rw [hspec]
  refine ⟨hrem, hkept, herr, ?_, ?_, ?_⟩
  · intro a ha
    constructor
    · intro horph
      rw [hrem]
      exact List.mem_filter.mpr ⟨mem_get_all_allocations.mpr ha,
        by simp [is_orphan, horph]⟩
    · intro hkeep
      rw [hkept]
      exact List.mem_filter.mpr ⟨mem_get_all_allocations.mpr ha,
        by simp [is_orphan, hkeep]⟩
  · intro hdr
    rw [hsnd, if_pos hdr]
  · intro hdr
    rw [hsnd, if_neg (by simp [hdr])]
    have hiff : ∀ x, x ∈ (get_all_allocations st).filter
          (fun a => is_orphan fs a)
        ↔ x ∈ st.allocations ∧ is_orphan fs x = true := by
      intro x
      rw [List.mem_filter, mem_get_all_allocations]
    rw [delete_ids_filter hnd hiff]
    apply List.filter_congr
    intro a _
    simp [is_orphan]

/-- Witness for C8, spec scenario 5: a registry with one orphaned and one
live allocation; dry run reports removed and kept correctly and deletes
nothing; a wet run deletes exactly the orphan. -/
theorem prune_classification_witness :
    (prune (fun p => p == "/x") (fun _ => false) true sampleRegistry).1.removed
      = [] ∧
    (prune (fun p => p == "/x") (fun _ => false) true sampleRegistry).1.kept
      = [sampleAlloc] ∧
    (prune (fun p => p == "/x") (fun _ => false) true sampleRegistry).2
      = sampleRegistry := by
  have h := prune_classification (fun p => p == "/x") (fun _ => false) true
    sampleRegistry (fun _ => rfl) (by decide)
  refine ⟨?_, ?_, h.2.2.2.2.1 rfl⟩
  · rw [h.1]; decide
  · rw [h.2.1]; decide

/-! ## C9: PruneStale criterion and (absent) per-record error capture -/

/-- The registry with exactly the non-stale rows kept, the final state of a
wet PruneStale run. -/
def keep_fresh (now : Int) (days : Nat) (st : Registry) : Registry :=
  { st with
    allocations := st.allocations.filter
      (fun a => !(decide (a.last_accessed_at < now - (days : Int)))) }

theorem registry_eq {st1 st2 : Registry}
    (h1 : st1.allocations = st2.allocations)
    (h2 : st1.port_ranges = st2.port_ranges)
    (h3 : st1.next_id = st2.next_id) : st1 = st2 := by
  cases st1
  cases st2
  simp_all

theorem prune_stale_go_spec (failDel : Nat → Bool) (dry_run : Bool)
    (hf : ∀ i, failDel i = false) :
    ∀ (l : List Allocation) (res : PruneResult) (st : Registry),
      prune_stale_go failDel dry_run l res st =
        .ok ({ res with removed := res.removed ++ l },
          if dry_run then st else delete_ids (l.map (fun a => a.id)) st) := by
  intro l
  induction l with
  | nil =>
    intro res st
    by_cases hdr : dry_run = true
    · rw [hdr]
      simp [prune_stale_go]
    · rw [Bool.not_eq_true] at hdr
      rw [hdr]
      simp [prune_stale_go, delete_ids]
  | cons a rest ih =>
    intro res st
    by_cases hdr : dry_run = true
    all_goals
      first
        | rw [hdr] at ih ⊢
        | (rw [Bool.not_eq_true] at hdr; rw [hdr] at ih ⊢)
    · simp [prune_stale_go, ih, List.append_assoc]
    · simp [prune_stale_go, hf, ih, List.append_assoc, delete_ids]

/-- Counterexample to C9 as stated: with one stale allocation whose delete
fails, PruneStale propagates the database error and aborts — nothing is
captured in an errors list — whereas Prune with the same failing delete
captures the error string per record and returns normally. -/
theorem prune_stale_aborts_on_delete_failure :
    prune_stale (fun _ => true) 100 30 false sampleRegistry
      = .error (.deleteFailed 1) ∧
    (∀ res, prune_stale (fun _ => true) 100 30 false sampleRegistry
      ≠ .ok res) ∧
    (prune (fun _ => false) (fun _ => true) false sampleRegistry).1.errors
      = ["x"] ∧
    (prune (fun _ => false) (fun _ => true) false sampleRegistry).2
      = sampleRegistry := by
  refine ⟨rfl, ?_, rfl, rfl⟩
  intro res h
  rw [show prune_stale (fun _ => true) 100 30 false sampleRegistry
    = .error (.deleteFailed 1) from rfl] at h
  exact absurd h (by simp)

/-- C9 amended: PruneStale removes exactly the allocations whose
last_accessed_at is older than now minus days (all others stay in the
registry); unlike Prune it has no per-record error capture — its kept and
errors lists are always empty and (as the counterexample shows) a deletion
failure propagates, aborting the remaining records. Stated under an
id-uniqueness hypothesis and a failure oracle reporting no delete
failure. -/
theorem prune_stale_spec (failDel : Nat → Bool) (now : Int) (days : Nat)
    (dry_run : Bool) (st : Registry)
    (hf : ∀ i, failDel i = false)
    (hnd : (st.allocations.map (fun a => a.id)).Nodup) :
    (prune_stale failDel now days dry_run st
      = .ok (⟨get_stale_allocations now days st, [], []⟩,
          if dry_run then st else keep_fresh now days st)) ∧
    (∀ a, a ∈ get_stale_allocations now days st
      ↔ a ∈ st.allocations ∧ a.last_accessed_at < now - (days : Int)) := by
  have hmem : ∀ a, a ∈ get_stale_allocations now days st
      ↔ a ∈ st.allocations ∧ a.last_accessed_at < now - (days : Int) := by
    intro a
    unfold get_stale_allocations
    rw [mem_sortLe, List.mem_filter]
    simp
  refine ⟨?_, hmem⟩
  unfold prune_stale
  rw [prune_stale_go_spec failDel dry_run hf]
  by_cases hdr : dry_run = true
  · rw [hdr]
    rfl
  · rw [Bool.not_eq_true] at hdr
    rw [hdr]
    have hl : ∀ x : Allocation, x ∈ get_stale_allocations now days st
        ↔ x ∈ st.allocations ∧
          decide (x.last_accessed_at < now - (days : Int)) = true := by
      intro x
      rw [hmem x, decide_eq_true_iff]
    have hfr := delete_ids_frame
      ((get_stale_allocations now days st).map (fun a => a.id)) st
    have hreg : delete_ids
        ((get_stale_allocations now days st).map (fun a => a.id)) st
        = keep_fresh now days st :=
      registry_eq (delete_ids_filter hnd hl) hfr.1 hfr.2
    rw [hreg]
    rfl

/-- Shared sample: an allocation last accessed 40 day-units before "now"
(50) and one accessed 5 day-units before. -/
def staleAlloc : Allocation :=
  { id := 1, context_hash := "A", context_path := "/a", context_label := "a",
    service := "postgres", port := 5432, container_port := none,
    env_var := none, source := none, created_at := 0, last_accessed_at := 10 }

/-- Companion fresh allocation for the staleness scenario. -/
def freshAlloc : Allocation :=
  { id := 2, context_hash := "B", context_path := "/b", context_label := "b",
    service := "redis", port := 6379, container_port := none,
    env_var := none, source := none, created_at := 0, last_accessed_at := 45 }

/-- Registry holding the stale and the fresh allocation. -/
def staleRegistry : Registry :=
  { allocations := [staleAlloc, freshAlloc], port_ranges := seeded_ranges,
    next_id := 3 }

/-- Witness for C9's amended theorem, spec scenario 6: PruneStale(30) at
now = 50 removes the allocation last accessed at 10 and keeps the one
accessed at 45. -/
theorem prune_stale_spec_witness :
    prune_stale (fun _ => false) 50 30 false staleRegistry
      = .ok (⟨[staleAlloc], [], []⟩,
          { staleRegistry with allocations := [freshAlloc] }) ∧
    staleAlloc ∈ get_stale_allocations 50 30 staleRegistry ∧
    freshAlloc ∉ get_stale_allocations 50 30 staleRegistry := by
  have h := prune_stale_spec (fun _ => false) 50 30 false staleRegistry
    (fun _ => rfl) (by decide)
  refine ⟨h.1.trans (by rfl), (h.2 staleAlloc).mpr ⟨by decide, by decide⟩, ?_⟩
  intro hm
  have hfresh := (h.2 freshAlloc).mp hm
  exact absurd hfresh.2 (by decide)

/-! ## C10: a preferred port of 0 is falsy and skipped -/

theorem scan_range_some_bounds {sys : SystemScanner} {unavailable : List Nat}
    {r : PortRange} {p : Nat} (h : scan_range sys unavailable r = some p) :
    r.start ≤ p ∧ p ≤ r.stop := by
  unfold scan_range at h
  have hm := List.mem_of_find?_eq_some h
  rw [List.mem_range'_1] at hm
  omega

/-- C10: a preferred port of 0 is treated as if no preferred port were
given — Allocate with preferred 0 is the same function of the state as
Allocate with no preferred port (the preferred-port check is skipped even
when 0 is absent from the unavailable set and the probe would call it
bindable) — and, whenever no allocation exists and the applicable ranges
start at 1 or above, the returned port comes from a range scan and is
never 0. -/
theorem allocate_pref_zero (sys : SystemScanner) (now : Int) (s ch : String)
    (st : Registry) :
    (allocate sys now s ch (some 0) st = allocate sys now s ch none st) ∧
    (get_allocation ch s st = none →
      1 ≤ (get_port_range s st).start →
      1 ≤ (get_port_range "default" st).start →
      ∀ p, (allocate sys now s ch (some 0) st).1 = .ok p → 1 ≤ p) := by
  constructor
  · rcases hget : get_allocation ch s st with - | a
    · simp [allocate, hget, pref_truthy]
    · simp [allocate, hget]
  · intro hget h1 h2 p hp
    simp only [allocate, hget, pref_truthy] at hp
    rw [if_neg (by simp)] at hp
    rcases hs : scan_range sys (get_unavailable_ports sys st)
        (get_port_range s st) with - | q
    · rw [hs] at hp
      by_cases hd : (s == "default") = true
      · rw [if_pos hd] at hp
        simp at hp
      · rw [if_neg hd] at hp
        rcases hds : scan_range sys (get_unavailable_ports sys st)
            (get_port_range "default" st) with - | q2
        · rw [hds] at hp
          simp at hp
        · rw [hds] at hp
          simp only [Except.ok.injEq] at hp
          subst hp
          exact Nat.le_trans h2 (scan_range_some_bounds hds).1
    · rw [hs] at hp
      simp only [Except.ok.injEq] at hp
      subst hp
      exact Nat.le_trans h1 (scan_range_some_bounds hs).1

/-- Witness for C10: with every port bindable and 0 not unavailable,
Allocate("redis", c, 0) equals Allocate("redis", c, no-preference) and
returns 6379 from the range scan, not 0. -/
theorem allocate_pref_zero_witness :
    allocate ⟨[], fun _ => true⟩ 0 "redis" "c" (some 0) initialRegistry
      = allocate ⟨[], fun _ => true⟩ 0 "redis" "c" none initialRegistry ∧
    get_allocation "c" "redis" initialRegistry = none ∧
    (allocate ⟨[], fun _ => true⟩ 0 "redis" "c" (some 0) initialRegistry).1
      = .ok 6379 ∧
    1 ≤ 6379 := by
  have h := allocate_pref_zero ⟨[], fun _ => true⟩ 0 "redis" "c" initialRegistry
  exact ⟨h.1, by decide, rfl,
    h.2 (by decide) (by decide) (by decide) 6379 rfl⟩

end Portman
